import Mathlib

/-!
Verification of the bounded, group-aware TCP client socket pool and the
HTTP `PartialData` range helper of this Chromium snapshot.

The repository ships the pool's unit tests
(`net/socket/tcp_client_socket_pool_unittest.cc`) but not the pool
implementation itself, so the pool and its ConnectJob life cycle are
modelled from the specification (admission algorithm, queue ordering,
release, cancellation and backup-job semantics); where the shipped tests
pin down behaviour the model follows the tests.  `PartialData`
(`net/http/partial_data.cc`) is shipped and is embedded directly.
-/

namespace ChromiumNet

/-- Request priorities used by the pool tests (`net::RequestPriority`):
`HIGHEST` outranks `MEDIUM`, which outranks `LOW`, which outranks
`LOWEST`. -/
inductive RequestPriority where
  | HIGHEST
  | MEDIUM
  | LOW
  | LOWEST
deriving DecidableEq, Repr

/-- Numeric rank of a priority; a larger rank means a more urgent request. -/
def rank : RequestPriority → Nat
  | .HIGHEST => 3
  | .MEDIUM => 2
  | .LOW => 1
  | .LOWEST => 0

/-- A pending request in a Group's queue: its global submission sequence
number and its priority.  Modelled from the spec: "Request: (priority,
insertion sequence number, ...)". -/
structure PReq where
  seq : Nat
  prio : RequestPriority
deriving DecidableEq, Repr

/-- Queue precedence: `a` is dequeued before `b` when `a` has strictly
higher priority, or equal priority and an earlier submission number
(spec: "by priority (higher priority first); ties broken by FIFO
insertion order"). -/
def qord (a b : PReq) : Prop :=
  rank b.prio < rank a.prio ∨ (a.prio = b.prio ∧ a.seq < b.seq)

instance (a b : PReq) : Decidable (qord a b) :=
  inferInstanceAs (Decidable (_ ∨ _))

/-- Insert a request into a priority-ordered queue: it goes behind every
request that takes precedence over it, so a new request never overtakes
an equal-priority older one. -/
def insertP (r : PReq) : List PReq → List PReq
  | [] => [r]
  | h :: t => if qord r h then r :: h :: t else h :: insertP r t

theorem rank_injective : ∀ p q : RequestPriority, rank p = rank q → p = q := by
  intro p q h
  cases p <;> cases q <;> simp_all [rank]

theorem qord_trans {a b c : PReq} (hab : qord a b) (hbc : qord b c) :
    qord a c := by
  rcases hab with h1 | ⟨hp1, hs1⟩ <;> rcases hbc with h2 | ⟨hp2, hs2⟩
  · exact Or.inl (lt_trans h2 h1)
  · exact Or.inl (hp2 ▸ h1)
  · exact Or.inl (hp1 ▸ h2)
  · exact Or.inr ⟨hp1.trans hp2, lt_trans hs1 hs2⟩

theorem qord_of_not_qord {r a : PReq} (h : ¬ qord r a) (hseq : a.seq < r.seq) :
    qord a r := by
  unfold qord at h ⊢
  push_neg at h
  obtain ⟨h1, h2⟩ := h
  rcases Nat.lt_or_ge (rank r.prio) (rank a.prio) with hlt | hge
  · exact Or.inl hlt
  · have heq : rank a.prio = rank r.prio := le_antisymm hge h1
    have hpq : a.prio = r.prio := rank_injective _ _ heq
    exact Or.inr ⟨hpq, hseq⟩

theorem seq_lt_of_qord_prio_eq {a b : PReq} (h : qord a b) (hp : a.prio = b.prio) :
    a.seq < b.seq := by
  rcases h with h | ⟨_, hs⟩
  · simp [hp] at h
  · exact hs

theorem mem_insertP {a r : PReq} : ∀ {l : List PReq},
    a ∈ insertP r l ↔ a = r ∨ a ∈ l := by
  intro l
  induction l with
  | nil => simp [insertP]
  | cons h t ih =>
      by_cases hq : qord r h
      · simp [insertP, hq]
      · simp [insertP, hq, ih]
        tauto

theorem insertP_ne_nil {r : PReq} : ∀ {l : List PReq}, insertP r l ≠ [] := by
  intro l
  cases l with
  | nil => simp [insertP]
  | cons h t =>
      by_cases hq : qord r h <;> simp [insertP, hq]

theorem pairwise_insertP {r : PReq} : ∀ {l : List PReq},
    List.Pairwise qord l → (∀ a ∈ l, a.seq < r.seq) →
    List.Pairwise qord (insertP r l) := by
  intro l
  induction l with
  | nil => intro _ _; simp [insertP]
  | cons h t ih =>
      intro hpw hseq
      rw [List.pairwise_cons] at hpw
      obtain ⟨hdom, htail⟩ := hpw
      by_cases hq : qord r h
      · rw [insertP, if_pos hq, List.pairwise_cons]
        constructor
        · intro x hx
          rcases List.mem_cons.mp hx with rfl | hxt
          · exact hq
          · exact qord_trans hq (hdom x hxt)
        · rw [List.pairwise_cons]
          exact ⟨hdom, htail⟩
      · rw [insertP, if_neg hq, List.pairwise_cons]
        constructor
        · intro x hx
          rcases mem_insertP.mp hx with rfl | hxt
          · exact qord_of_not_qord hq (hseq h (List.mem_cons_self h t))
          · exact hdom x hxt
        · exact ih htail (fun a ha => hseq a (List.mem_cons_of_mem h ha))

/-- Per-destination Group state.  Modelled from the spec: "Group: owns an
ordered set of idle Sockets ..., a count of active (connecting or in-use)
sockets, and a priority queue of pending Requests." -/
structure PGroup where
  idle : Nat
  active : Nat
  pending : List PReq
deriving DecidableEq, Repr

/-- Pool configuration, fixed at construction (spec §6): the global cap
`max_sockets` and the per-group cap `max_sockets_per_group`. -/
structure PoolCfg where
  maxSockets : Nat
  maxSocketsPerGroup : Nat
deriving DecidableEq, Repr

/-- `kMaxSockets` from the unit test (src/unnamed/part_001). -/
def kMaxSockets : Nat := 32

/-- `kMaxSocketsPerGroup` from the unit test (src/unnamed/part_001). -/
def kMaxSocketsPerGroup : Nat := 6

/-- Pool configuration used by the unit tests. -/
def testCfg : PoolCfg := ⟨kMaxSockets, kMaxSocketsPerGroup⟩

/-- Whole-pool state.  Modelled from the spec: `groups` maps each group
name to its Group; `globalActive` is the pool-wide `global_active_count`
(the number of connecting or in-use sockets, i.e. the sum of the groups'
active counts); `created` counts every socket ever created by the
factory (the tests' `allocation_count`); `completed` lists request
sequence numbers in the order their callbacks completed; `reqInfo`
records, indexed by sequence number, the group and priority of every
request ever submitted. -/
structure PoolState where
  groups : String → PGroup
  globalActive : Nat
  created : Nat
  completed : List Nat
  reqInfo : List (String × RequestPriority)

/-- Point update of the group map. -/
def updateG (gs : String → PGroup) (g : String) (G : PGroup) : String → PGroup :=
  fun x => if x = g then G else gs x

/-- External stimuli to the pool.  `req g p` is `RequestSocket` on group
`g` at priority `p` (host resolution and connect succeed synchronously,
as in the keep-alive tests); `rel g ka` is `ReleaseSocket` of one of
group `g`'s in-use sockets with `keepAlive = ka` (for `ka = true` the
socket is still connected and idle, as the mock sockets are). -/
inductive PEvent where
  | req (g : String) (p : RequestPriority)
  | rel (g : String) (keepAlive : Bool)
deriving DecidableEq, Repr

/-- One pool transition.  Modelled from the spec's admission algorithm
(§4.1): (1) an idle socket is bound synchronously; (2) otherwise, if
`active < max_sockets_per_group` and `global_active_count < max_sockets`,
a ConnectJob is started (here it resolves and connects synchronously and
the socket is bound to the highest-priority, earliest-inserted pending
request); (3) otherwise the request is queued by priority.  On release:
with keep-alive the returning socket is handed straight to the best
pending request, or parked idle if none is waiting; without keep-alive
the socket is discarded and, if requests are pending and the budget now
allows it, a fresh ConnectJob is started for the best one. -/
def poolStep (cfg : PoolCfg) (S : PoolState) : PEvent → PoolState
  | .req g p =>
      let n := S.reqInfo.length
      let info := S.reqInfo ++ [(g, p)]
      let G := S.groups g
      if 0 < G.idle then
        { S with reqInfo := info,
                 groups := updateG S.groups g
                   { G with idle := G.idle - 1, active := G.active + 1 },
                 globalActive := S.globalActive + 1,
                 completed := S.completed ++ [n] }
      else if G.active < cfg.maxSocketsPerGroup ∧ S.globalActive < cfg.maxSockets then
        match insertP ⟨n, p⟩ G.pending with
        | [] => S
        | h :: rest =>
            { S with reqInfo := info,
                     groups := updateG S.groups g
                       { G with active := G.active + 1, pending := rest },
                     globalActive := S.globalActive + 1,
                     created := S.created + 1,
                     completed := S.completed ++ [h.seq] }
      else
        { S with reqInfo := info,
                 groups := updateG S.groups g
                   { G with pending := insertP ⟨n, p⟩ G.pending } }
  | .rel g keepAlive =>
      let G := S.groups g
      if 0 < G.active then
        if keepAlive then
          match G.pending with
          | h :: rest =>
              { S with groups := updateG S.groups g { G with pending := rest },
                       completed := S.completed ++ [h.seq] }
          | [] =>
              { S with groups := updateG S.groups g
                         { G with active := G.active - 1, idle := G.idle + 1 },
                       globalActive := S.globalActive - 1 }
        else
          match G.pending with
          | h :: rest =>
              if G.active - 1 < cfg.maxSocketsPerGroup ∧
                  S.globalActive - 1 < cfg.maxSockets then
                { S with groups := updateG S.groups g { G with pending := rest },
                         created := S.created + 1,
                         completed := S.completed ++ [h.seq] }
              else
                { S with groups := updateG S.groups g
                           { G with active := G.active - 1, pending := h :: rest },
                         globalActive := S.globalActive - 1 }
          | [] =>
              { S with groups := updateG S.groups g { G with active := G.active - 1 },
                       globalActive := S.globalActive - 1 }
      else S

/-- The freshly constructed pool: no groups, no sockets, no history. -/
def initPool : PoolState :=
  { groups := fun _ => ⟨0, 0, []⟩
    globalActive := 0
    created := 0
    completed := []
    reqInfo := [] }

/-- Run the pool on a sequence of events. -/
def runPool (cfg : PoolCfg) (events : List PEvent) : PoolState :=
  events.foldl (poolStep cfg) initPool

/-- Two sequence numbers denote requests of the same group and priority
when the registry assigned them identical (group, priority) entries. -/
def sameKey (info : List (String × RequestPriority)) (a b : Nat) : Prop :=
  info[a]? = info[b]?

/-- Net error code `OK` (net/base/net_errors.h, external to src). -/
def OK : Int := 0

/-- Net error code `ERR_INVALID_ARGUMENT`. -/
def ERR_INVALID_ARGUMENT : Int := -4

/-- Net error code `ERR_CONNECTION_FAILED`. -/
def ERR_CONNECTION_FAILED : Int := -104

/-- Net error code `ERR_NAME_NOT_RESOLVED`. -/
def ERR_NAME_NOT_RESOLVED : Int := -105

/-- ConnectJob phases.  Modelled from the spec: "State machine:
`Resolving -> Connecting -> Connected` (terminal success) or
`-> Failed(code)` (terminal) at any state"; cancellation is a
client-side detachment, not a job phase. -/
inductive JobPhase where
  | resolving
  | connecting
  | connected
  | failed (code : Int)
deriving DecidableEq, Repr

/-- Completion events a single ConnectJob can receive from its external
collaborators: the resolver answers (success or failure), or the native
connect finishes (success, or failure after the address list is
exhausted). -/
inductive JobEvent where
  | resolveOk
  | resolveFail
  | connectOk
  | connectFail (code : Int)
deriving DecidableEq, Repr

/-- Events in the life of one Request: a completion event of its primary
or backup ConnectJob, the backup timer firing after the fixed retry
interval, or the caller resetting its handle. -/
inductive RLEvent where
  | prim (e : JobEvent)
  | backup (e : JobEvent)
  | timerFires
  | cancel
deriving DecidableEq, Repr

/-- The pool-side state serving one Request.  Modelled from the spec:
the primary ConnectJob (socket id 0), an optional backup ConnectJob
(socket id 1), the socket bound to the caller's handle, the Group's idle
pool, sockets claimed by other Requests already pending in the same
Group (`otherPending`, claimed in order into `othersBound`), the
sequence of callback invocations on the handle, the detach flag set by
cancellation, and whether the Request reached a terminal callback. -/
structure RLState where
  primary : JobPhase
  backupJob : Option JobPhase
  bound : Option Nat
  idlePool : List Nat
  othersBound : List (Nat × Nat)
  otherPending : List Nat
  results : List Int
  canceled : Bool
  done : Bool
deriving DecidableEq, Repr

/-- Fresh request state: primary job resolving, no backup, nothing
delivered; `others` are the same-Group Requests already pending. -/
def initRL (others : List Nat) : RLState :=
  { primary := .resolving
    backupJob := none
    bound := none
    idlePool := []
    othersBound := []
    otherPending := others
    results := []
    canceled := false
    done := false }

/-- Route the socket of a job that finished after its Request was
detached or already satisfied.  Modelled from the spec: the socket is
claimed by a Request already pending in the same Group if there is one,
otherwise it is placed into the Group's idle pool — never bound to the
canceled caller, never discarded while connected. -/
def routeSocket (sid : Nat) (S : RLState) : RLState :=
  match S.otherPending with
  | [] => { S with idlePool := S.idlePool ++ [sid] }
  | r :: rest => { S with othersBound := S.othersBound ++ [(r, sid)],
                          otherPending := rest }

/-- Deliver a terminal result to the Request's callback and mark it
done, binding `sid` (if any) to the handle. -/
def deliverResult (c : Int) (sid : Option Nat) (S : RLState) : RLState :=
  { S with results := S.results ++ [c], bound := sid, done := true }

/-- A job just connected: if the Request was canceled or already has a
terminal result, the socket is routed away from the handle; otherwise
this job wins the race, its socket is bound and `OK` is delivered. -/
def onJobConnected (sid : Nat) (S : RLState) : RLState :=
  if S.canceled = true ∨ S.done = true then routeSocket sid S
  else deliverResult OK (some sid) S

/-- A job just terminally failed: the failure is discarded if the
Request was canceled or already completed; otherwise the failure is
delivered at once with that job's code.  Modelled from the spec and the
shipped tests `BackupSocketFailAfterStall` / `BackupSocketFailAfterDelay`
(src/unnamed/part_001): the first failing job completes the Request even
while the other job is still in flight. -/
def onJobFailed (c : Int) (S : RLState) : RLState :=
  if S.canceled = true ∨ S.done = true then S
  else deliverResult c none S

/-- One transition of a Request's life cycle.  Job phases advance per
the spec's ConnectJob state machine (resolution failure terminal-fails
with the name-resolution error); the backup timer starts a second job
only if it fires while the primary has not connected, no backup exists
and the Request is still live; cancellation detaches the handle (jobs
keep running; their later outcomes are routed by `onJobConnected` /
`onJobFailed`). -/
def rlStep (S : RLState) : RLEvent → RLState
  | .prim je =>
      match S.primary, je with
      | .resolving, .resolveOk => { S with primary := .connecting }
      | .resolving, .resolveFail =>
          onJobFailed ERR_NAME_NOT_RESOLVED
            { S with primary := .failed ERR_NAME_NOT_RESOLVED }
      | .connecting, .connectOk => onJobConnected 0 { S with primary := .connected }
      | .connecting, .connectFail c => onJobFailed c { S with primary := .failed c }
      | _, _ => S
  | .backup je =>
      match S.backupJob with
      | none => S
      | some b =>
          match b, je with
          | .resolving, .resolveOk => { S with backupJob := some .connecting }
          | .resolving, .resolveFail =>
              onJobFailed ERR_NAME_NOT_RESOLVED
                { S with backupJob := some (.failed ERR_NAME_NOT_RESOLVED) }
          | .connecting, .connectOk =>
              onJobConnected 1 { S with backupJob := some .connected }
          | .connecting, .connectFail c =>
              onJobFailed c { S with backupJob := some (.failed c) }
          | _, _ => S
  | .timerFires =>
      if S.canceled = false ∧ S.done = false ∧ S.backupJob = none ∧
          S.primary ≠ .connected then
        { S with backupJob := some .resolving }
      else S
  | .cancel =>
      if S.done = false ∧ S.canceled = false then { S with canceled := true }
      else S

/-- Run a Request's life cycle on a sequence of events. -/
def runRL (S : RLState) (events : List RLEvent) : RLState :=
  events.foldl rlStep S

/-- Claim C1's concrete scenario: 16 requests to one group, all served
with keep-alive releases. -/
def c1ScenarioTrace : List PEvent :=
  (List.replicate 16 (PEvent.req "a" .LOW)) ++
  List.replicate 16 (PEvent.rel "a" true)

/-- Claim C1's counterexample trace: with `max_sockets = 1` and
`max_sockets_per_group = 1`, park group "a"'s socket idle, fill the
global budget from group "b", then re-bind the idle socket. -/
def c1CexTrace : List PEvent :=
  [PEvent.req "a" .LOW, PEvent.rel "a" true, PEvent.req "b" .LOW,
   PEvent.req "a" .LOW]

/-- The one-socket configuration used by the C1 counterexample. -/
def tinyCfg : PoolCfg := ⟨1, 1⟩

/-- Claim C3's concrete scenario: fill the per-group cap of 6 with LOW
requests, queue priorities HIGHEST, LOWEST, LOWEST, MEDIUM, LOW, then
release sockets one at a time with keep-alive. -/
def c3ScenarioTrace : List PEvent :=
  (List.replicate 6 (PEvent.req "a" .LOW)) ++
  [PEvent.req "a" .HIGHEST, PEvent.req "a" .LOWEST, PEvent.req "a" .LOWEST,
   PEvent.req "a" .MEDIUM, PEvent.req "a" .LOW] ++
  List.replicate 5 (PEvent.rel "a" true)

/-- Trace of `BackupSocketFailAfterDelay` (src/unnamed/part_001): the
primary resolves and its connect stalls past the retry interval, the
backup starts and fails at once, then the delayed primary finally
connects. -/
def c4CexTrace : List RLEvent :=
  [RLEvent.prim .resolveOk, RLEvent.timerFires, RLEvent.backup .resolveOk,
   RLEvent.backup (.connectFail ERR_CONNECTION_FAILED), RLEvent.prim .connectOk]

/-- Trace of `BackupSocketFailAfterStall` (src/unnamed/part_001): the
primary resolves and its connect stalls forever; the backup starts after
the retry interval and fails. -/
def c5CexTrace : List RLEvent :=
  [RLEvent.prim .resolveOk, RLEvent.timerFires, RLEvent.backup .resolveOk,
   RLEvent.backup (.connectFail ERR_CONNECTION_FAILED)]

/-- An HTTP byte range (net/http/http_byte_range.h, external to src):
first and last byte positions and a suffix length, each `-1` when
absent. -/
structure HttpByteRange where
  first_byte_position : Int
  last_byte_position : Int
  suffix_length : Int
deriving DecidableEq, Repr

/-- The `PartialData` fields manipulated by net/http/partial_data.cc
(src/unnamed/part_002). -/
structure PartialData where
  byte_range_ : HttpByteRange
  current_range_start_ : Int
  resource_size_ : Int
  sparse_entry_ : Bool
  truncated_ : Bool
  cached_min_len_ : Int
deriving DecidableEq, Repr

/-- `PartialData::Init` (src/unnamed/part_002, lines 26-39), embedded
directly.  Its collaborators are external to src and passed as
parameters: `parseRanges` stands for `HttpUtil::ParseRanges` (`none` on
parse failure) and `isValid` for `HttpByteRange::IsValid`.  The source
returns false when parsing fails or yields more than one range; it
stores `ranges[0]` into `byte_range_` before the validity check, and on
success zeroes `resource_size_` and sets `current_range_start_` to the
range's first byte position. -/
def PartialData.Init (parseRanges : String → Option (List HttpByteRange))
    (isValid : HttpByteRange → Bool) (pd : PartialData) (headers : String) :
    Bool × PartialData :=
  match parseRanges headers with
  | none => (false, pd)
  | some [r] =>
      let pd1 := { pd with byte_range_ := r }
      if isValid r then
        (true, { pd1 with resource_size_ := 0,
                          current_range_start_ := r.first_byte_position })
      else (false, pd1)
  | some _ => (false, pd)

/-- `kint32max`, the largest 32-bit signed value (base/basictypes.h). -/
def kint32max : Int := 2147483647

/-- What a `CacheRead`/`CacheWrite` call does to the disk-cache entry:
either an entry I/O operation (with the offset the entry sees) or an
immediate return with a code and no entry I/O. -/
inductive CacheIOAction where
  | readSparse (offset : Int) (len : Int)
  | readData (offset : Int) (len : Int)
  | writeSparse (offset : Int) (len : Int)
  | writeData (offset : Int) (len : Int)
  | ret (code : Int)
deriving DecidableEq, Repr

/-- `PartialData::CacheRead` (src/unnamed/part_002, lines 265-283),
embedded as the entry action it performs: `read_len` is
`min(data_len, cached_min_len_)`; a zero `read_len` returns 0 at once;
sparse entries issue `ReadSparseData`; otherwise a start beyond
`kint32max` returns `ERR_INVALID_ARGUMENT`, else `ReadData` runs at the
narrowed offset. -/
def PartialData.CacheRead (pd : PartialData) (data_len : Int) : CacheIOAction :=
  let read_len := min data_len pd.cached_min_len_
  if read_len = 0 then .ret 0
  else if pd.sparse_entry_ then .readSparse pd.current_range_start_ read_len
  else if pd.current_range_start_ > kint32max then .ret ERR_INVALID_ARGUMENT
  else .readData pd.current_range_start_ read_len

/-- `PartialData::CacheWrite` (src/unnamed/part_002, lines 285-297),
embedded as the entry action it performs. -/
def PartialData.CacheWrite (pd : PartialData) (data_len : Int) : CacheIOAction :=
  if pd.sparse_entry_ then .writeSparse pd.current_range_start_ data_len
  else if pd.current_range_start_ > kint32max then .ret ERR_INVALID_ARGUMENT
  else .writeData pd.current_range_start_ data_len

/-- The pool invariant carried through every trace: each Group's queue
is sorted by dequeue precedence; queued and completed sequence numbers
are registered; an idle socket never coexists with pending requests in
its Group; the per-group cap holds; completions of same-key requests
respect submission order, and no completed request of a key overtakes a
still-pending earlier one. -/
structure JInv (cfg : PoolCfg) (S : PoolState) : Prop where
  sorted : ∀ g, List.Pairwise qord (S.groups g).pending
  pendingLt : ∀ g, ∀ r ∈ (S.groups g).pending, r.seq < S.reqInfo.length
  completedLt : ∀ c ∈ S.completed, c < S.reqInfo.length
  idleNoPending : ∀ g, 0 < (S.groups g).idle → (S.groups g).pending = []
  registered : ∀ g, ∀ r ∈ (S.groups g).pending,
      S.reqInfo[r.seq]? = some (g, r.prio)
  groupCap : ∀ g, (S.groups g).active + (S.groups g).idle ≤ cfg.maxSocketsPerGroup
  fifo : List.Pairwise (fun a b => sameKey S.reqInfo a b → a < b) S.completed
  noLateComplete : ∀ g, ∀ r ∈ (S.groups g).pending, ∀ c ∈ S.completed,
      S.reqInfo[c]? = S.reqInfo[r.seq]? → c < r.seq

/-- The request-lifecycle invariant: at most one callback ever fires, an
unfinished Request has delivered nothing and bound nothing, and a
canceled Request never reaches a terminal callback. -/
structure KInv (S : RLState) : Prop where
  atMostOne : S.results.length ≤ 1
  notDone : S.done = false → S.results = [] ∧ S.bound = none
  canceledNotDone : S.canceled = true → S.done = false

theorem updateG_self (gs : String → PGroup) (g : String) (G : PGroup) :
    updateG gs g G g = G := by
  simp [updateG]

theorem updateG_ne (gs : String → PGroup) (g : String) (G : PGroup)
    {g' : String} (h : g' ≠ g) : updateG gs g G g' = gs g' := by
  simp [updateG, h]

theorem poolStep_req_idle (cfg : PoolCfg) (S : PoolState) (g : String)
    (p : RequestPriority) (h : 0 < (S.groups g).idle) :
    poolStep cfg S (.req g p) =
      { S with reqInfo := S.reqInfo ++ [(g, p)],
               groups := updateG S.groups g
                 { S.groups g with idle := (S.groups g).idle - 1,
                                   active := (S.groups g).active + 1 },
               globalActive := S.globalActive + 1,
               completed := S.completed ++ [S.reqInfo.length] } := by
  simp [poolStep, h]

theorem poolStep_req_start (cfg : PoolCfg) (S : PoolState) (g : String)
    (p : RequestPriority) (h : ¬ 0 < (S.groups g).idle)
    (hcap : (S.groups g).active < cfg.maxSocketsPerGroup ∧
      S.globalActive < cfg.maxSockets)
    {b : PReq} {rest : List PReq}
    (hins : insertP ⟨S.reqInfo.length, p⟩ (S.groups g).pending = b :: rest) :
    poolStep cfg S (.req g p) =
      { S with reqInfo := S.reqInfo ++ [(g, p)],
               groups := updateG S.groups g
                 { S.groups g with active := (S.groups g).active + 1,
                                   pending := rest },
               globalActive := S.globalActive + 1,
               created := S.created + 1,
               completed := S.completed ++ [b.seq] } := by
  simp [poolStep, h, hcap, hins]

theorem poolStep_req_queue (cfg : PoolCfg) (S : PoolState) (g : String)
    (p : RequestPriority) (h : ¬ 0 < (S.groups g).idle)
    (hcap : ¬ ((S.groups g).active < cfg.maxSocketsPerGroup ∧
      S.globalActive < cfg.maxSockets)) :
    poolStep cfg S (.req g p) =
      { S with reqInfo := S.reqInfo ++ [(g, p)],
               groups := updateG S.groups g
                 { S.groups g with
                     pending := insertP ⟨S.reqInfo.length, p⟩ (S.groups g).pending } } := by
  simp [poolStep, h, hcap]

theorem poolStep_rel_ka_pending (cfg : PoolCfg) (S : PoolState) (g : String)
    (ha : 0 < (S.groups g).active) {b : PReq} {rest : List PReq}
    (hp : (S.groups g).pending = b :: rest) :
    poolStep cfg S (.rel g true) =
      { S with groups := updateG S.groups g { S.groups g with pending := rest },
               completed := S.completed ++ [b.seq] } := by
  simp [poolStep, ha, hp]

theorem poolStep_rel_ka_park (cfg : PoolCfg) (S : PoolState) (g : String)
    (ha : 0 < (S.groups g).active) (hp : (S.groups g).pending = []) :
    poolStep cfg S (.rel g true) =
      { S with groups := updateG S.groups g
                 { S.groups g with active := (S.groups g).active - 1,
                                   idle := (S.groups g).idle + 1 },
               globalActive := S.globalActive - 1 } := by
  simp [poolStep, ha, hp]

theorem poolStep_rel_noka_restart (cfg : PoolCfg) (S : PoolState) (g : String)
    (ha : 0 < (S.groups g).active) {b : PReq} {rest : List PReq}
    (hp : (S.groups g).pending = b :: rest)
    (hcap : (S.groups g).active - 1 < cfg.maxSocketsPerGroup ∧
      S.globalActive - 1 < cfg.maxSockets) :
    poolStep cfg S (.rel g false) =
      { S with groups := updateG S.groups g { S.groups g with pending := rest },
               created := S.created + 1,
               completed := S.completed ++ [b.seq] } := by
  simp [poolStep, ha, hp, hcap]

theorem poolStep_rel_noka_blocked (cfg : PoolCfg) (S : PoolState) (g : String)
    (ha : 0 < (S.groups g).active) {b : PReq} {rest : List PReq}
    (hp : (S.groups g).pending = b :: rest)
    (hcap : ¬ ((S.groups g).active - 1 < cfg.maxSocketsPerGroup ∧
      S.globalActive - 1 < cfg.maxSockets)) :
    poolStep cfg S (.rel g false) =
      { S with groups := updateG S.groups g
                 { S.groups g with active := (S.groups g).active - 1,
                                   pending := b :: rest },
               globalActive := S.globalActive - 1 } := by
  simp [poolStep, ha, hp, hcap]

theorem poolStep_rel_noka_quiet (cfg : PoolCfg) (S : PoolState) (g : String)
    (ha : 0 < (S.groups g).active) (hp : (S.groups g).pending = []) :
    poolStep cfg S (.rel g false) =
      { S with groups := updateG S.groups g
                 { S.groups g with active := (S.groups g).active - 1 },
               globalActive := S.globalActive - 1 } := by
  simp [poolStep, ha, hp]

theorem poolStep_rel_inactive (cfg : PoolCfg) (S : PoolState) (g : String)
    (ka : Bool) (ha : ¬ 0 < (S.groups g).active) :
    poolStep cfg S (.rel g ka) = S := by
  simp [poolStep, ha]

theorem fifo_extend {info : List (String × RequestPriority)}
    {x : String × RequestPriority} {completed : List Nat}
    (h3 : ∀ c ∈ completed, c < info.length)
    (h7 : List.Pairwise (fun a b => sameKey info a b → a < b) completed) :
    List.Pairwise (fun a b => sameKey (info ++ [x]) a b → a < b) completed := by
  refine h7.imp_of_mem ?_
  intro a b ha hb hold hnew
  apply hold
  unfold sameKey at hnew ⊢
  rwa [List.getElem?_append_left (h3 a ha),
    List.getElem?_append_left (h3 b hb)] at hnew

theorem JInv_step_req (cfg : PoolCfg) (S : PoolState) (g : String)
    (p : RequestPriority) (hJ : JInv cfg S) :
    JInv cfg (poolStep cfg S (.req g p)) := by
  have hlen : (S.reqInfo ++ [(g, p)]).length = S.reqInfo.length + 1 := by simp
  by_cases hidle : 0 < (S.groups g).idle
  · -- branch 1: bind an idle socket synchronously
    rw [poolStep_req_idle cfg S g p hidle]
    have hpnil : (S.groups g).pending = [] := hJ.idleNoPending g hidle
    refine ⟨?_, ?_, ?_, ?_, ?_, ?_, ?_, ?_⟩
    · intro g'
      by_cases hg : g' = g
      · subst hg; simp only [updateG_self]; exact hJ.sorted g'
      · simp only [updateG_ne _ _ _ hg]; exact hJ.sorted g'
    · intro g' r hr
      rw [hlen]
      have hr' : r ∈ (S.groups g').pending := by
        by_cases hg : g' = g
        · subst hg; simpa [updateG_self] using hr
        · simpa [updateG_ne _ _ _ hg] using hr
      exact Nat.lt_succ_of_lt (hJ.pendingLt g' r hr')
    · intro c hc
      rw [hlen]
      rcases List.mem_append.mp hc with hold | hnew
      · exact Nat.lt_succ_of_lt (hJ.completedLt c hold)
      · have : c = S.reqInfo.length := by simpa using hnew
        omega
    · intro g' hi
      by_cases hg : g' = g
      · subst hg; simp only [updateG_self]; exact hpnil
      · simp only [updateG_ne _ _ _ hg] at hi ⊢
        exact hJ.idleNoPending g' hi
    · intro g' r hr
      have hr' : r ∈ (S.groups g').pending := by
        by_cases hg : g' = g
        · subst hg; simpa [updateG_self] using hr
        · simpa [updateG_ne _ _ _ hg] using hr
      rw [List.getElem?_append_left (hJ.pendingLt g' r hr')]
      exact hJ.registered g' r hr'
    · intro g'
      by_cases hg : g' = g
      · subst hg; simp only [updateG_self]
        have h1 := hJ.groupCap g'
        omega
      · simp only [updateG_ne _ _ _ hg]; exact hJ.groupCap g'
    · rw [List.pairwise_append]
      refine ⟨fifo_extend hJ.completedLt hJ.fifo, by simp, ?_⟩
      intro a ha b hb _
      have hb' : b = S.reqInfo.length := by simpa using hb
      subst hb'
      exact hJ.completedLt a ha
    · intro g' r hr c hc hkey
      have hr' : r ∈ (S.groups g').pending := by
        by_cases hg : g' = g
        · subst hg; simpa [updateG_self] using hr
        · simpa [updateG_ne _ _ _ hg] using hr
      have hrlt := hJ.pendingLt g' r hr'
      rcases List.mem_append.mp hc with hold | hnew
      · rw [List.getElem?_append_left (hJ.completedLt c hold),
          List.getElem?_append_left hrlt] at hkey
        exact hJ.noLateComplete g' r hr' c hold hkey
      · have hcn : c = S.reqInfo.length := by simpa using hnew
        subst hcn
        rw [List.getElem?_concat_length, List.getElem?_append_left hrlt,
          hJ.registered g' r hr'] at hkey
        have hkey2 : g = g' ∧ p = r.prio := by simpa using hkey
        rw [← hkey2.1] at hr'
        rw [hpnil] at hr'
        exact absurd hr' (List.not_mem_nil r)
  · by_cases hcap : (S.groups g).active < cfg.maxSocketsPerGroup ∧
        S.globalActive < cfg.maxSockets
    · -- branch 2: start a ConnectJob; it connects and serves the best request
      cases hins : insertP ⟨S.reqInfo.length, p⟩ (S.groups g).pending with
      | nil => exact absurd hins insertP_ne_nil
      | cons b rest =>
        rw [poolStep_req_start cfg S g p hidle hcap hins]
        have hidle0 : (S.groups g).idle = 0 := by omega
        have hsort : List.Pairwise qord (b :: rest) := by
          rw [← hins]
          exact pairwise_insertP (hJ.sorted g) (fun a ha => hJ.pendingLt g a ha)
        have hmem : ∀ x ∈ b :: rest,
            x = (⟨S.reqInfo.length, p⟩ : PReq) ∨ x ∈ (S.groups g).pending := by
          intro x hx
          rw [← hins] at hx
          exact mem_insertP.mp hx
        have hseqlt : ∀ x ∈ b :: rest, x.seq < S.reqInfo.length + 1 := by
          intro x hx
          rcases hmem x hx with rfl | hxo
          · exact Nat.lt_succ_self _
          · exact Nat.lt_succ_of_lt (hJ.pendingLt g x hxo)
        have hregext : ∀ x ∈ b :: rest,
            (S.reqInfo ++ [(g, p)])[x.seq]? = some (g, x.prio) := by
          intro x hx
          rcases hmem x hx with rfl | hxo
          · simp
          · rw [List.getElem?_append_left (hJ.pendingLt g x hxo)]
            exact hJ.registered g x hxo
        refine ⟨?_, ?_, ?_, ?_, ?_, ?_, ?_, ?_⟩
        · intro g'
          by_cases hg : g' = g
          · subst hg; simp only [updateG_self]; exact hsort.of_cons
          · simp only [updateG_ne _ _ _ hg]; exact hJ.sorted g'
        · intro g' r hr
          rw [hlen]
          by_cases hg : g' = g
          · subst hg; simp only [updateG_self] at hr
            exact hseqlt r (List.mem_cons_of_mem b hr)
          · simp only [updateG_ne _ _ _ hg] at hr
            exact Nat.lt_succ_of_lt (hJ.pendingLt g' r hr)
        · intro c hc
          rw [hlen]
          rcases List.mem_append.mp hc with hold | hnew
          · exact Nat.lt_succ_of_lt (hJ.completedLt c hold)
          · have : c = b.seq := by simpa using hnew
            subst this
            exact hseqlt b (List.mem_cons_self b rest)
        · intro g' hi
          by_cases hg : g' = g
          · subst hg; simp only [updateG_self] at hi
            exact absurd hi (by simp [hidle0])
          · simp only [updateG_ne _ _ _ hg] at hi ⊢
            exact hJ.idleNoPending g' hi
        · intro g' r hr
          by_cases hg : g' = g
          · subst hg; simp only [updateG_self] at hr ⊢
            exact hregext r (List.mem_cons_of_mem b hr)
          · simp only [updateG_ne _ _ _ hg] at hr ⊢
            rw [List.getElem?_append_left (hJ.pendingLt g' r hr)]
            exact hJ.registered g' r hr
        · intro g'
          by_cases hg : g' = g
          · subst hg; simp only [updateG_self]
            have h1 := hcap.1
            have h2 := hidle0
            omega
          · simp only [updateG_ne _ _ _ hg]; exact hJ.groupCap g'
        · rw [List.pairwise_append]
          refine ⟨fifo_extend hJ.completedLt hJ.fifo, by simp, ?_⟩
          intro a ha c hc hkey
          have hc' : c = b.seq := by simpa using hc
          subst hc'
          rcases hmem b (List.mem_cons_self b rest) with hb | hbo
          · have : b.seq = S.reqInfo.length := by rw [hb]
            rw [this]
            exact hJ.completedLt a ha
          · unfold sameKey at hkey
            rw [List.getElem?_append_left (hJ.completedLt a ha),
              List.getElem?_append_left (hJ.pendingLt g b hbo)] at hkey
            exact hJ.noLateComplete g b hbo a ha hkey
        · intro g' r hr c hc hkey
          rcases List.mem_append.mp hc with hold | hnew
          · by_cases hg : g' = g
            · subst hg; simp only [updateG_self] at hr
              rcases hmem r (List.mem_cons_of_mem b hr) with rfl | hro
              · exact hJ.completedLt c hold
              · rw [List.getElem?_append_left (hJ.completedLt c hold),
                  List.getElem?_append_left (hJ.pendingLt g' r hro)] at hkey
                exact hJ.noLateComplete g' r hro c hold hkey
            · simp only [updateG_ne _ _ _ hg] at hr
              rw [List.getElem?_append_left (hJ.completedLt c hold),
                List.getElem?_append_left (hJ.pendingLt g' r hr)] at hkey
              exact hJ.noLateComplete g' r hr c hold hkey
          · have hcb : c = b.seq := by simpa using hnew
            subst hcb
            by_cases hg : g' = g
            · subst hg; simp only [updateG_self] at hr
              rw [hregext b (List.mem_cons_self b rest),
                hregext r (List.mem_cons_of_mem b hr)] at hkey
              have hbp : b.prio = r.prio := by simpa using hkey
              have hq : qord b r := (List.pairwise_cons.mp hsort).1 r hr
              exact seq_lt_of_qord_prio_eq hq hbp
            · simp only [updateG_ne _ _ _ hg] at hr
              rw [hregext b (List.mem_cons_self b rest),
                List.getElem?_append_left (hJ.pendingLt g' r hr),
                hJ.registered g' r hr] at hkey
              have hkey2 : g = g' ∧ b.prio = r.prio := by simpa using hkey
              exact absurd hkey2.1.symm hg
    · -- branch 3: caps reached, queue the request by priority
      rw [poolStep_req_queue cfg S g p hidle hcap]
      have hmem : ∀ x ∈ insertP ⟨S.reqInfo.length, p⟩ (S.groups g).pending,
          x = (⟨S.reqInfo.length, p⟩ : PReq) ∨ x ∈ (S.groups g).pending :=
        fun x hx => mem_insertP.mp hx
      refine ⟨?_, ?_, ?_, ?_, ?_, ?_, ?_, ?_⟩
      · intro g'
        by_cases hg : g' = g
        · subst hg; simp only [updateG_self]
          exact pairwise_insertP (hJ.sorted g') (fun a ha => hJ.pendingLt g' a ha)
        · simp only [updateG_ne _ _ _ hg]; exact hJ.sorted g'
      · intro g' r hr
        rw [hlen]
        by_cases hg : g' = g
        · subst hg; simp only [updateG_self] at hr
          rcases hmem r hr with rfl | hro
          · exact Nat.lt_succ_self _
          · exact Nat.lt_succ_of_lt (hJ.pendingLt g' r hro)
        · simp only [updateG_ne _ _ _ hg] at hr
          exact Nat.lt_succ_of_lt (hJ.pendingLt g' r hr)
      · intro c hc
        rw [hlen]
        exact Nat.lt_succ_of_lt (hJ.completedLt c hc)
      · intro g' hi
        by_cases hg : g' = g
        · subst hg; simp only [updateG_self] at hi
          exact absurd hi hidle
        · simp only [updateG_ne _ _ _ hg] at hi ⊢
          exact hJ.idleNoPending g' hi
      · intro g' r hr
        by_cases hg : g' = g
        · subst hg; simp only [updateG_self] at hr ⊢
          rcases hmem r hr with rfl | hro
          · simp
          · rw [List.getElem?_append_left (hJ.pendingLt g' r hro)]
            exact hJ.registered g' r hro
        · simp only [updateG_ne _ _ _ hg] at hr ⊢
          rw [List.getElem?_append_left (hJ.pendingLt g' r hr)]
          exact hJ.registered g' r hr
      · intro g'
        by_cases hg : g' = g
        · subst hg; simp only [updateG_self]
          exact hJ.groupCap g'
        · simp only [updateG_ne _ _ _ hg]; exact hJ.groupCap g'
      · exact fifo_extend hJ.completedLt hJ.fifo
      · intro g' r hr c hc hkey
        have hclt := hJ.completedLt c hc
        by_cases hg : g' = g
        · subst hg; simp only [updateG_self] at hr
          rcases hmem r hr with rfl | hro
          · exact hclt
          · rw [List.getElem?_append_left hclt,
              List.getElem?_append_left (hJ.pendingLt g' r hro)] at hkey
            exact hJ.noLateComplete g' r hro c hc hkey
        · simp only [updateG_ne _ _ _ hg] at hr
          rw [List.getElem?_append_left hclt,
            List.getElem?_append_left (hJ.pendingLt g' r hr)] at hkey
          exact hJ.noLateComplete g' r hr c hc hkey

theorem JInv_of_pop (cfg : PoolCfg) (S : PoolState) (g : String) (b : PReq)
    (rest : List PReq) (hJ : JInv cfg S)
    (hp : (S.groups g).pending = b :: rest) (T : PoolState)
    (hTg : T.groups = updateG S.groups g { S.groups g with pending := rest })
    (hTc : T.completed = S.completed ++ [b.seq])
    (hTi : T.reqInfo = S.reqInfo) : JInv cfg T := by
  have hsort : List.Pairwise qord (b :: rest) := by rw [← hp]; exact hJ.sorted g
  have hbmem : b ∈ (S.groups g).pending := by rw [hp]; exact List.mem_cons_self b rest
  have hrmem : ∀ r ∈ rest, r ∈ (S.groups g).pending := by
    intro r hr; rw [hp]; exact List.mem_cons_of_mem b hr
  refine ⟨?_, ?_, ?_, ?_, ?_, ?_, ?_, ?_⟩
  · intro g'
    rw [hTg]
    by_cases hg : g' = g
    · subst hg; simp only [updateG_self]; exact hsort.of_cons
    · simp only [updateG_ne _ _ _ hg]; exact hJ.sorted g'
  · intro g' r hr
    rw [hTg] at hr
    rw [hTi]
    by_cases hg : g' = g
    · subst hg; simp only [updateG_self] at hr
      exact hJ.pendingLt g' r (hrmem r hr)
    · simp only [updateG_ne _ _ _ hg] at hr
      exact hJ.pendingLt g' r hr
  · intro c hc
    rw [hTc] at hc
    rw [hTi]
    rcases List.mem_append.mp hc with hold | hnew
    · exact hJ.completedLt c hold
    · have : c = b.seq := by simpa using hnew
      subst this
      exact hJ.pendingLt g b hbmem
  · intro g' hi
    rw [hTg] at hi ⊢
    by_cases hg : g' = g
    · subst hg; simp only [updateG_self] at hi ⊢
      have := hJ.idleNoPending g' hi
      rw [hp] at this
      exact absurd this (List.cons_ne_nil b rest)
    · simp only [updateG_ne _ _ _ hg] at hi ⊢
      exact hJ.idleNoPending g' hi
  · intro g' r hr
    rw [hTg] at hr
    rw [hTi]
    by_cases hg : g' = g
    · subst hg; simp only [updateG_self] at hr
      exact hJ.registered g' r (hrmem r hr)
    · simp only [updateG_ne _ _ _ hg] at hr
      exact hJ.registered g' r hr
  · intro g'
    rw [hTg]
    by_cases hg : g' = g
    · subst hg; simp only [updateG_self]
      have := hJ.groupCap g'
      omega
    · simp only [updateG_ne _ _ _ hg]; exact hJ.groupCap g'
  · rw [hTc, hTi, List.pairwise_append]
    refine ⟨hJ.fifo, by simp, ?_⟩
    intro a ha c hc hkey
    have hc' : c = b.seq := by simpa using hc
    subst hc'
    exact hJ.noLateComplete g b hbmem a ha hkey
  · intro g' r hr c hc hkey
    rw [hTg] at hr
    rw [hTc] at hc
    rw [hTi] at hkey
    have hr' : r ∈ (S.groups g').pending := by
      by_cases hg : g' = g
      · subst hg; simp only [updateG_self] at hr
        exact hrmem r hr
      · simp only [updateG_ne _ _ _ hg] at hr
        exact hr
    rcases List.mem_append.mp hc with hold | hnew
    · exact hJ.noLateComplete g' r hr' c hold hkey
    · have : c = b.seq := by simpa using hnew
      subst this
      rw [hJ.registered g b hbmem, hJ.registered g' r hr'] at hkey
      have hkey2 : g = g' ∧ b.prio = r.prio := by simpa using hkey
      obtain ⟨hgg, hbp⟩ := hkey2
      by_cases hg : g' = g
      · subst hg
        have hrr : r ∈ rest := by
          simpa only [updateG_self] using hr
        have hq : qord b r := (List.pairwise_cons.mp hsort).1 r hrr
        exact seq_lt_of_qord_prio_eq hq hbp
      · exact absurd hgg.symm hg

theorem JInv_of_counts (cfg : PoolCfg) (S : PoolState) (g : String) (G2 : PGroup)
    (hJ : JInv cfg S) (hpend : G2.pending = (S.groups g).pending)
    (hcapG : G2.active + G2.idle ≤ cfg.maxSocketsPerGroup)
    (hidleP : 0 < G2.idle → G2.pending = []) (T : PoolState)
    (hTg : T.groups = updateG S.groups g G2) (hTc : T.completed = S.completed)
    (hTi : T.reqInfo = S.reqInfo) : JInv cfg T := by
  refine ⟨?_, ?_, ?_, ?_, ?_, ?_, ?_, ?_⟩
  · intro g'
    rw [hTg]
    by_cases hg : g' = g
    · subst hg; simp only [updateG_self]
      rw [hpend]; exact hJ.sorted g'
    · simp only [updateG_ne _ _ _ hg]; exact hJ.sorted g'
  · intro g' r hr
    rw [hTg] at hr
    rw [hTi]
    by_cases hg : g' = g
    · subst hg; simp only [updateG_self] at hr
      rw [hpend] at hr
      exact hJ.pendingLt g' r hr
    · simp only [updateG_ne _ _ _ hg] at hr
      exact hJ.pendingLt g' r hr
  · intro c hc
    rw [hTc] at hc
    rw [hTi]
    exact hJ.completedLt c hc
  · intro g' hi
    rw [hTg] at hi ⊢
    by_cases hg : g' = g
    · subst hg; simp only [updateG_self] at hi ⊢
      exact hidleP hi
    · simp only [updateG_ne _ _ _ hg] at hi ⊢
      exact hJ.idleNoPending g' hi
  · intro g' r hr
    rw [hTg] at hr
    rw [hTi]
    by_cases hg : g' = g
    · subst hg; simp only [updateG_self] at hr
      rw [hpend] at hr
      exact hJ.registered g' r hr
    · simp only [updateG_ne _ _ _ hg] at hr
      exact hJ.registered g' r hr
  · intro g'
    rw [hTg]
    by_cases hg : g' = g
    · subst hg; simp only [updateG_self]; exact hcapG
    · simp only [updateG_ne _ _ _ hg]; exact hJ.groupCap g'
  · rw [hTc, hTi]; exact hJ.fifo
  · intro g' r hr c hc hkey
    rw [hTg] at hr
    rw [hTc] at hc
    rw [hTi] at hkey
    by_cases hg : g' = g
    · subst hg; simp only [updateG_self] at hr
      rw [hpend] at hr
      exact hJ.noLateComplete g' r hr c hc hkey
    · simp only [updateG_ne _ _ _ hg] at hr
      exact hJ.noLateComplete g' r hr c hc hkey

theorem JInv_step_rel (cfg : PoolCfg) (S : PoolState) (g : String) (ka : Bool)
    (hJ : JInv cfg S) : JInv cfg (poolStep cfg S (.rel g ka)) := by
  by_cases ha : 0 < (S.groups g).active
  · cases ka
    · cases hp : (S.groups g).pending with
      | nil =>
          rw [poolStep_rel_noka_quiet cfg S g ha hp]
          refine JInv_of_counts cfg S g
            { S.groups g with active := (S.groups g).active - 1 }
            hJ rfl ?_ ?_ _ rfl rfl rfl
          · have := hJ.groupCap g
            dsimp only
            omega
          · intro hi
            exact hJ.idleNoPending g hi
      | cons b rest =>
          by_cases hcap : (S.groups g).active - 1 < cfg.maxSocketsPerGroup ∧
              S.globalActive - 1 < cfg.maxSockets
          · rw [poolStep_rel_noka_restart cfg S g ha hp hcap]
            exact JInv_of_pop cfg S g b rest hJ hp _ rfl rfl rfl
          · rw [poolStep_rel_noka_blocked cfg S g ha hp hcap]
            refine JInv_of_counts cfg S g
              { S.groups g with active := (S.groups g).active - 1,
                                pending := b :: rest }
              hJ ?_ ?_ ?_ _ rfl rfl rfl
            · exact hp.symm
            · have := hJ.groupCap g
              dsimp only
              omega
            · intro hi
              have := hJ.idleNoPending g hi
              rw [hp] at this
              exact absurd this (List.cons_ne_nil b rest)
    · cases hp : (S.groups g).pending with
      | nil =>
          rw [poolStep_rel_ka_park cfg S g ha hp]
          refine JInv_of_counts cfg S g
            { S.groups g with active := (S.groups g).active - 1,
                              idle := (S.groups g).idle + 1 }
            hJ rfl ?_ ?_ _ rfl rfl rfl
          · have := hJ.groupCap g
            dsimp only
            omega
          · intro _
            exact hp
      | cons b rest =>
          rw [poolStep_rel_ka_pending cfg S g ha hp]
          exact JInv_of_pop cfg S g b rest hJ hp _ rfl rfl rfl
  · rw [poolStep_rel_inactive cfg S g ka ha]
    exact hJ

theorem JInv_init (cfg : PoolCfg) : JInv cfg initPool := by
  refine ⟨?_, ?_, ?_, ?_, ?_, ?_, ?_, ?_⟩ <;> simp [initPool]

theorem JInv_poolStep (cfg : PoolCfg) (S : PoolState) (e : PEvent)
    (hJ : JInv cfg S) : JInv cfg (poolStep cfg S e) := by
  cases e with
  | req g p => exact JInv_step_req cfg S g p hJ
  | rel g ka => exact JInv_step_rel cfg S g ka hJ

theorem JInv_foldl (cfg : PoolCfg) : ∀ (l : List PEvent) (S : PoolState),
    JInv cfg S → JInv cfg (l.foldl (poolStep cfg) S) := by
  intro l
  induction l with
  | nil => intro S h; exact h
  | cons e t ih => intro S h; exact ih _ (JInv_poolStep cfg S e h)

theorem JInv_run (cfg : PoolCfg) (events : List PEvent) :
    JInv cfg (runPool cfg events) :=
  JInv_foldl cfg events initPool (JInv_init cfg)

theorem runPool_append_one (cfg : PoolCfg) (events : List PEvent) (e : PEvent) :
    runPool cfg (events ++ [e]) = poolStep cfg (runPool cfg events) e := by
  simp [runPool, List.foldl_append]

theorem routeSocket_results (sid : Nat) (S : RLState) :
    (routeSocket sid S).results = S.results := by
  cases h : S.otherPending <;> simp [routeSocket, h]

theorem routeSocket_bound (sid : Nat) (S : RLState) :
    (routeSocket sid S).bound = S.bound := by
  cases h : S.otherPending <;> simp [routeSocket, h]

theorem routeSocket_canceled (sid : Nat) (S : RLState) :
    (routeSocket sid S).canceled = S.canceled := by
  cases h : S.otherPending <;> simp [routeSocket, h]

theorem routeSocket_done (sid : Nat) (S : RLState) :
    (routeSocket sid S).done = S.done := by
  cases h : S.otherPending <;> simp [routeSocket, h]

theorem KInv_deliver (c : Int) (sid : Option Nat) (S : RLState) (hK : KInv S)
    (hc : S.canceled = false) (hd : S.done = false) :
    KInv (deliverResult c sid S) := by
  obtain ⟨he, -⟩ := hK.notDone hd
  refine ⟨?_, ?_, ?_⟩ <;> simp [deliverResult, he, hc]

theorem KInv_route (sid : Nat) (S : RLState) (hK : KInv S) :
    KInv (routeSocket sid S) := by
  refine ⟨?_, ?_, ?_⟩
  · rw [routeSocket_results]
    exact hK.atMostOne
  · rw [routeSocket_done, routeSocket_results, routeSocket_bound]
    exact hK.notDone
  · rw [routeSocket_canceled, routeSocket_done]
    exact hK.canceledNotDone

theorem KInv_onConnected (sid : Nat) (S : RLState) (hK : KInv S) :
    KInv (onJobConnected sid S) := by
  unfold onJobConnected
  by_cases h : S.canceled = true ∨ S.done = true
  · rw [if_pos h]
    exact KInv_route sid S hK
  · rw [if_neg h]
    push_neg at h
    exact KInv_deliver _ _ S hK (by simpa using h.1) (by simpa using h.2)

theorem KInv_onFailed (c : Int) (S : RLState) (hK : KInv S) :
    KInv (onJobFailed c S) := by
  unfold onJobFailed
  by_cases h : S.canceled = true ∨ S.done = true
  · rw [if_pos h]
    exact hK
  · rw [if_neg h]
    push_neg at h
    exact KInv_deliver _ _ S hK (by simpa using h.1) (by simpa using h.2)

theorem KInv_rlStep (S : RLState) (e : RLEvent) (hK : KInv S) :
    KInv (rlStep S e) := by
  have hK' : ∀ T : RLState, T.results = S.results → T.bound = S.bound →
      T.canceled = S.canceled → T.done = S.done → KInv T := by
    intro T h1 h2 h3 h4
    refine ⟨?_, ?_, ?_⟩
    · rw [h1]; exact hK.atMostOne
    · rw [h4, h1, h2]; exact hK.notDone
    · rw [h3, h4]; exact hK.canceledNotDone
  cases e with
  | prim je =>
      cases hp : S.primary <;> cases je <;>
        simp only [rlStep, hp] <;>
        first
          | exact hK
          | exact KInv_onFailed _ _ (hK' _ rfl rfl rfl rfl)
          | exact KInv_onConnected _ _ (hK' _ rfl rfl rfl rfl)
          | exact hK' _ rfl rfl rfl rfl
  | backup je =>
      cases hb : S.backupJob with
      | none => simp only [rlStep, hb]; exact hK
      | some b =>
          cases b <;> cases je <;>
            simp only [rlStep, hb] <;>
            first
              | exact hK
              | exact KInv_onFailed _ _ (hK' _ rfl rfl rfl rfl)
              | exact KInv_onConnected _ _ (hK' _ rfl rfl rfl rfl)
              | exact hK' _ rfl rfl rfl rfl
  | timerFires =>
      by_cases h : S.canceled = false ∧ S.done = false ∧ S.backupJob = none ∧
          S.primary ≠ .connected
      · simp only [rlStep, if_pos h]
        exact hK' _ rfl rfl rfl rfl
      · simp only [rlStep, if_neg h]
        exact hK
  | cancel =>
      by_cases h : S.done = false ∧ S.canceled = false
      · simp only [rlStep, if_pos h]
        refine ⟨hK.atMostOne, ?_, ?_⟩
        · intro hd
          exact hK.notDone h.1
        · intro _
          exact h.1
      · simp only [rlStep, if_neg h]
        exact hK

theorem KInv_initRL (others : List Nat) : KInv (initRL others) := by
  refine ⟨?_, ?_, ?_⟩ <;> simp [initRL]

theorem KInv_foldl : ∀ (l : List RLEvent) (S : RLState),
    KInv S → KInv (l.foldl rlStep S) := by
  intro l
  induction l with
  | nil => intro S h; exact h
  | cons e t ih => intro S h; exact ih _ (KInv_rlStep S e h)

theorem KInv_runRL (others : List Nat) (events : List RLEvent) :
    KInv (runRL (initRL others) events) :=
  KInv_foldl events (initRL others) (KInv_initRL others)

theorem rlStep_canceled_mono (S : RLState) (e : RLEvent)
    (h : S.canceled = true) : (rlStep S e).canceled = true := by
  cases e with
  | prim je =>
      cases hp : S.primary <;> cases je <;>
        simp only [rlStep, hp] <;>
        simp [onJobFailed, onJobConnected, routeSocket_canceled, h, deliverResult]
  | backup je =>
      cases hb : S.backupJob with
      | none => simp only [rlStep, hb]; exact h
      | some b =>
          cases b <;> cases je <;>
            simp only [rlStep, hb] <;>
            simp [onJobFailed, onJobConnected, routeSocket_canceled, h, deliverResult]
  | timerFires =>
      by_cases hc : S.canceled = false ∧ S.done = false ∧ S.backupJob = none ∧
          S.primary ≠ .connected
      · rw [hc.1] at h; exact absurd h (by simp)
      · simp only [rlStep, if_neg hc]; exact h
  | cancel =>
      by_cases hc : S.done = false ∧ S.canceled = false
      · rw [hc.2] at h; exact absurd h (by simp)
      · simp only [rlStep, if_neg hc]; exact h

theorem canceled_foldl : ∀ (l : List RLEvent) (S : RLState),
    S.canceled = true → (l.foldl rlStep S).canceled = true := by
  intro l
  induction l with
  | nil => intro S h; exact h
  | cons e t ih => intro S h; exact ih _ (rlStep_canceled_mono S e h)

theorem runRL_append (S : RLState) (l1 l2 : List RLEvent) :
    runRL S (l1 ++ l2) = runRL (runRL S l1) l2 := by
  simp [runRL, List.foldl_append]

theorem created_growth_bounded (cfg : PoolCfg) (S : PoolState) (e : PEvent)
    (h : S.created < (poolStep cfg S e).created) :
    (poolStep cfg S e).globalActive ≤ cfg.maxSockets := by
  cases e with
  | req g p =>
      by_cases hidle : 0 < (S.groups g).idle
      · rw [poolStep_req_idle cfg S g p hidle] at h
        exact absurd h (lt_irrefl _)
      · by_cases hcap : (S.groups g).active < cfg.maxSocketsPerGroup ∧
            S.globalActive < cfg.maxSockets
        · cases hins : insertP ⟨S.reqInfo.length, p⟩ (S.groups g).pending with
          | nil => exact absurd hins insertP_ne_nil
          | cons b rest =>
              rw [poolStep_req_start cfg S g p hidle hcap hins]
              have := hcap.2
              dsimp only
              omega
        · rw [poolStep_req_queue cfg S g p hidle hcap] at h
          exact absurd h (lt_irrefl _)
  | rel g ka =>
      by_cases ha : 0 < (S.groups g).active
      · cases ka
        · cases hp : (S.groups g).pending with
          | nil =>
              rw [poolStep_rel_noka_quiet cfg S g ha hp] at h
              exact absurd h (lt_irrefl _)
          | cons b rest =>
              by_cases hcap : (S.groups g).active - 1 < cfg.maxSocketsPerGroup ∧
                  S.globalActive - 1 < cfg.maxSockets
              · rw [poolStep_rel_noka_restart cfg S g ha hp hcap]
                have := hcap.2
                dsimp only
                omega
              · rw [poolStep_rel_noka_blocked cfg S g ha hp hcap] at h
                exact absurd h (lt_irrefl _)
        · cases hp : (S.groups g).pending with
          | nil =>
              rw [poolStep_rel_ka_park cfg S g ha hp] at h
              exact absurd h (lt_irrefl _)
          | cons b rest =>
              rw [poolStep_rel_ka_pending cfg S g ha hp] at h
              exact absurd h (lt_irrefl _)
      · rw [poolStep_rel_inactive cfg S g ka ha] at h
        exact absurd h (lt_irrefl _)

/-- Claim C1 counterexample: as modelled from the spec's admission
algorithm, binding an idle socket is not guarded by the global cap, so
with `max_sockets = 1`, `max_sockets_per_group = 1`, the sequence
request("a"), release("a", keep-alive), request("b"), request("a")
drives `global_active_count` to 2, above `max_sockets = 1`. -/
theorem c1_global_cap_counterexample :
    (runPool tinyCfg c1CexTrace).globalActive = 2 ∧
    tinyCfg.maxSockets = 1 ∧
    tinyCfg.maxSockets < (runPool tinyCfg c1CexTrace).globalActive := by
  decide

set_option maxRecDepth 8000 in
/-- Claim C1 (amended): for every sequence of RequestSocket/ReleaseSocket
calls, each Group's active+idle count never exceeds
`max_sockets_per_group`, and `global_active_count` is at most
`max_sockets` after every step that creates a new socket (the guard of
every new ConnectJob); re-binding an idle socket, however, can push
`global_active_count` above `max_sockets` (see the counterexample).
With `max_sockets_per_group = 6`, a run of 16 requests to one group
served with keep-alive releases allocates exactly 6 sockets. -/
theorem c1_caps_amended :
    (∀ (cfg : PoolCfg) (events : List PEvent) (g : String),
      ((runPool cfg events).groups g).active +
        ((runPool cfg events).groups g).idle ≤ cfg.maxSocketsPerGroup) ∧
    (∀ (cfg : PoolCfg) (events : List PEvent) (e : PEvent),
      (runPool cfg events).created < (runPool cfg (events ++ [e])).created →
      (runPool cfg (events ++ [e])).globalActive ≤ cfg.maxSockets) ∧
    (runPool testCfg c1ScenarioTrace).created = kMaxSocketsPerGroup := by
  refine ⟨?_, ?_, ?_⟩
  · intro cfg events g
    exact (JInv_run cfg events).groupCap g
  · intro cfg events e h
    rw [runPool_append_one] at h ⊢
    exact created_growth_bounded cfg (runPool cfg events) e h
  · decide

/-- Claim C1 witness: a concrete socket-creating step (the very first
request) leaves `global_active_count` within `max_sockets`. -/
theorem c1_caps_amended_witness :
    (runPool testCfg ([] ++ [PEvent.req "a" .LOW])).globalActive ≤
      testCfg.maxSockets :=
  c1_caps_amended.2.1 testCfg [] (PEvent.req "a" .LOW) (by decide)

set_option maxRecDepth 8000 in
/-- Claim C3: completions of equal-priority requests of the same Group
always respect submission order (the completion list is pairwise ordered
by sequence number whenever two entries share a (group, priority)
registry key); the head of every Group's pending queue takes precedence
over every other queued request (strict priority order, FIFO ties); and
in the concrete scenario — per-group cap 6 filled, queued priorities
HIGHEST, LOWEST, LOWEST, MEDIUM, LOW — releases dequeue in the order
HIGHEST, MEDIUM, LOW, LOWEST, LOWEST (completions 6, 9, 10, 7, 8). -/
theorem c3_priority_fifo :
    (∀ (cfg : PoolCfg) (events : List PEvent),
      List.Pairwise
        (fun a b => sameKey (runPool cfg events).reqInfo a b → a < b)
        (runPool cfg events).completed) ∧
    (∀ (cfg : PoolCfg) (events : List PEvent) (g : String) (b : PReq)
        (rest : List PReq),
      ((runPool cfg events).groups g).pending = b :: rest →
      ∀ r ∈ rest, qord b r) ∧
    ((runPool testCfg c3ScenarioTrace).completed =
        [0, 1, 2, 3, 4, 5, 6, 9, 10, 7, 8] ∧
      (runPool testCfg c3ScenarioTrace).reqInfo =
        [("a", .LOW), ("a", .LOW), ("a", .LOW), ("a", .LOW), ("a", .LOW),
         ("a", .LOW), ("a", .HIGHEST), ("a", .LOWEST), ("a", .LOWEST),
         ("a", .MEDIUM), ("a", .LOW)]) := by
  refine ⟨?_, ?_, ?_⟩
  · intro cfg events
    exact (JInv_run cfg events).fifo
  · intro cfg events g b rest hp r hr
    have hs := (JInv_run cfg events).sorted g
    rw [hp] at hs
    exact (List.pairwise_cons.mp hs).1 r hr
  · constructor <;> decide

/-- Claim C3 witness: with the per-group cap filled and HIGHEST then
LOWEST queued, the queue head (the HIGHEST request, sequence 6) takes
precedence over the queued LOWEST request (sequence 7). -/
theorem c3_priority_fifo_witness :
    qord ⟨6, RequestPriority.HIGHEST⟩ ⟨7, RequestPriority.LOWEST⟩ :=
  c3_priority_fifo.2.1 testCfg
    (List.replicate 6 (PEvent.req "a" .LOW) ++
      [PEvent.req "a" .HIGHEST, PEvent.req "a" .LOWEST])
    "a" ⟨6, RequestPriority.HIGHEST⟩ [⟨7, RequestPriority.LOWEST⟩]
    (by decide) ⟨7, RequestPriority.LOWEST⟩ (by simp)

/-- Claim C7: releasing a socket with keep-alive into a Group with
pending requests immediately completes the best pending request — the
queue head, which takes precedence over every other queued request —
without creating any new socket, and removes it from the queue. -/
theorem c7_keepalive_release_handover :
    ∀ (cfg : PoolCfg) (events : List PEvent) (g : String) (b : PReq)
      (rest : List PReq),
      ((runPool cfg events).groups g).pending = b :: rest →
      0 < ((runPool cfg events).groups g).active →
      (poolStep cfg (runPool cfg events) (.rel g true)).completed =
          (runPool cfg events).completed ++ [b.seq] ∧
      (poolStep cfg (runPool cfg events) (.rel g true)).created =
          (runPool cfg events).created ∧
      ((poolStep cfg (runPool cfg events) (.rel g true)).groups g).pending =
          rest ∧
      (∀ r ∈ rest, qord b r) := by
  intro cfg events g b rest hp ha
  rw [poolStep_rel_ka_pending cfg (runPool cfg events) g ha hp]
  refine ⟨rfl, rfl, ?_, ?_⟩
  · simp [updateG_self]
  · intro r hr
    have hs := (JInv_run cfg events).sorted g
    rw [hp] at hs
    exact (List.pairwise_cons.mp hs).1 r hr

set_option maxRecDepth 8000 in
/-- Claim C7 witness: with six LOW requests active and one HIGHEST
request queued, a keep-alive release completes the queued request
(sequence 6) at once, creates no socket, and empties the queue. -/
theorem c7_keepalive_release_handover_witness :
    (poolStep testCfg
        (runPool testCfg
          (List.replicate 6 (PEvent.req "a" .LOW) ++ [PEvent.req "a" .HIGHEST]))
        (.rel "a" true)).completed =
      (runPool testCfg
        (List.replicate 6 (PEvent.req "a" .LOW) ++
          [PEvent.req "a" .HIGHEST])).completed ++ [6] ∧
    (poolStep testCfg
        (runPool testCfg
          (List.replicate 6 (PEvent.req "a" .LOW) ++ [PEvent.req "a" .HIGHEST]))
        (.rel "a" true)).created =
      (runPool testCfg
        (List.replicate 6 (PEvent.req "a" .LOW) ++
          [PEvent.req "a" .HIGHEST])).created := by
  have h := c7_keepalive_release_handover testCfg
    (List.replicate 6 (PEvent.req "a" .LOW) ++ [PEvent.req "a" .HIGHEST])
    "a" ⟨6, RequestPriority.HIGHEST⟩ [] (by decide) (by decide)
  exact ⟨h.1, h.2.1⟩

/-- Claim C2: a Request canceled while its ConnectJob is in flight never
has anything bound or delivered to its handle (over every event
sequence); when the detached job later connects, the handle and callback
are untouched and the socket is parked in the Group's idle pool — unless
a Request already pending in the same Group claims it, in which case the
earliest such pending Request receives it. -/
theorem c2_cancel_socket_not_rebound :
    (∀ (others : List Nat) (events : List RLEvent),
      (runRL (initRL others) events).canceled = true →
      (runRL (initRL others) events).bound = none ∧
      (runRL (initRL others) events).results = []) ∧
    (∀ S : RLState, S.canceled = true → S.primary = .connecting →
      (rlStep S (.prim .connectOk)).bound = S.bound ∧
      (rlStep S (.prim .connectOk)).results = S.results ∧
      (S.otherPending = [] →
        (rlStep S (.prim .connectOk)).idlePool = S.idlePool ++ [0]) ∧
      (∀ (r : Nat) (rest : List Nat), S.otherPending = r :: rest →
        (rlStep S (.prim .connectOk)).othersBound = S.othersBound ++ [(r, 0)] ∧
        (rlStep S (.prim .connectOk)).otherPending = rest)) := by
  constructor
  · intro others events h
    have hK := KInv_runRL others events
    have hd := hK.canceledNotDone h
    exact ⟨(hK.notDone hd).2, (hK.notDone hd).1⟩
  · intro S hc hp
    have hstep : rlStep S (.prim .connectOk) =
        routeSocket 0 { S with primary := .connected } := by
      simp [rlStep, hp, onJobConnected, hc]
    rw [hstep]
    refine ⟨routeSocket_bound 0 _, routeSocket_results 0 _, ?_, ?_⟩
    · intro hop
      simp [routeSocket, hop]
    · intro r rest hop
      simp [routeSocket, hop]

/-- Claim C2 witness: cancel a fresh request, let its job resolve and
connect; nothing is bound, no callback fires, and with no other pending
request the socket lands in the idle pool. -/
theorem c2_cancel_socket_not_rebound_witness :
    ((runRL (initRL [])
        [RLEvent.cancel, RLEvent.prim .resolveOk]).bound = none ∧
      (runRL (initRL [])
        [RLEvent.cancel, RLEvent.prim .resolveOk]).results = []) ∧
    (rlStep (runRL (initRL []) [RLEvent.cancel, RLEvent.prim .resolveOk])
        (.prim .connectOk)).idlePool =
      (runRL (initRL [])
        [RLEvent.cancel, RLEvent.prim .resolveOk]).idlePool ++ [0] := by
  refine ⟨c2_cancel_socket_not_rebound.1 [] _ (by decide), ?_⟩
  exact (c2_cancel_socket_not_rebound.2 _ (by decide) (by decide)).2.2.1 (by decide)

/-- Claim C4 counterexample (trace of `BackupSocketFailAfterDelay`, in
src/unnamed/part_001): the backup fails while the primary is still
connecting, and when the primary then becomes the first — and only —
job to connect, its socket is not bound to the Request and the Request
has completed with the failure, not successfully; the socket goes to
the idle pool instead. -/
theorem c4_first_connect_counterexample :
    (runRL (initRL []) c4CexTrace).primary = .connected ∧
    (runRL (initRL []) c4CexTrace).backupJob =
      some (.failed ERR_CONNECTION_FAILED) ∧
    (runRL (initRL []) c4CexTrace).bound = none ∧
    (runRL (initRL []) c4CexTrace).results = [ERR_CONNECTION_FAILED] ∧
    (runRL (initRL []) c4CexTrace).idlePool = [0] := by
  decide

/-- Claim C4 (amended): if the backup timer fires while the primary has
not connected, no backup exists and the Request is live, a second
ConnectJob starts; whichever job connects first *while the Request is
still unsatisfied and uncanceled* has its socket bound and the Request
completes successfully with `OK`; a job that connects after the Request
has already completed is detached — the handle and callback are
untouched and its socket goes to the Group's idle pool. -/
theorem c4_backup_race_amended :
    (∀ S : RLState, S.canceled = false → S.done = false →
      S.backupJob = none → S.primary ≠ .connected →
      (rlStep S .timerFires).backupJob = some .resolving) ∧
    (∀ S : RLState, S.canceled = false → S.done = false → S.results = [] →
      S.primary = .connecting →
      (rlStep S (.prim .connectOk)).bound = some 0 ∧
      (rlStep S (.prim .connectOk)).results = [OK] ∧
      (rlStep S (.prim .connectOk)).done = true) ∧
    (∀ S : RLState, S.canceled = false → S.done = false → S.results = [] →
      S.backupJob = some .connecting →
      (rlStep S (.backup .connectOk)).bound = some 1 ∧
      (rlStep S (.backup .connectOk)).results = [OK] ∧
      (rlStep S (.backup .connectOk)).done = true) ∧
    (∀ S : RLState, S.done = true → S.otherPending = [] →
      S.primary = .connecting →
      (rlStep S (.prim .connectOk)).idlePool = S.idlePool ++ [0] ∧
      (rlStep S (.prim .connectOk)).bound = S.bound ∧
      (rlStep S (.prim .connectOk)).results = S.results) ∧
    (∀ S : RLState, S.done = true → S.otherPending = [] →
      S.backupJob = some .connecting →
      (rlStep S (.backup .connectOk)).idlePool = S.idlePool ++ [1] ∧
      (rlStep S (.backup .connectOk)).bound = S.bound ∧
      (rlStep S (.backup .connectOk)).results = S.results) := by
  refine ⟨?_, ?_, ?_, ?_, ?_⟩
  · intro S hc hd hb hpc
    simp [rlStep, hc, hd, hb, hpc]
  · intro S hc hd hr hp
    simp [rlStep, hp, onJobConnected, hc, hd, deliverResult, hr, OK]
  · intro S hc hd hr hb
    simp [rlStep, hb, onJobConnected, hc, hd, deliverResult, hr, OK]
  · intro S hd hop hp
    simp [rlStep, hp, onJobConnected, hd, routeSocket, hop]
  · intro S hd hop hb
    simp [rlStep, hb, onJobConnected, hd, routeSocket, hop]

/-- Claim C4 witness: on the `BackupSocketConnect` case-1 trace — the
primary stalls in its connect, the timer fires, the backup resolves —
the timer has started the backup job, and the backup then connects
first: socket 1 is bound and the callback receives `OK`. -/
theorem c4_backup_race_amended_witness :
    (rlStep (runRL (initRL []) [RLEvent.prim .resolveOk])
        .timerFires).backupJob = some .resolving ∧
    (rlStep (runRL (initRL [])
        [RLEvent.prim .resolveOk, RLEvent.timerFires, RLEvent.backup .resolveOk])
        (.backup .connectOk)).bound = some 1 ∧
    (rlStep (runRL (initRL [])
        [RLEvent.prim .resolveOk, RLEvent.timerFires, RLEvent.backup .resolveOk])
        (.backup .connectOk)).results = [OK] := by
  refine ⟨?_, ?_, ?_⟩
  · exact c4_backup_race_amended.1 _ (by decide) (by decide) (by decide) (by decide)
  · exact (c4_backup_race_amended.2.2.1 _ (by decide) (by decide) (by decide)
      (by decide)).1
  · exact (c4_backup_race_amended.2.2.1 _ (by decide) (by decide) (by decide)
      (by decide)).2.1

/-- Claim C5 counterexample (trace of `BackupSocketFailAfterStall`, in
src/unnamed/part_001): the backup fails while the primary is still
connecting (it never fails), yet the connection-failure error is
delivered to the Request at once — not "only after both primary and
backup have failed". -/
theorem c5_error_before_both_failed_counterexample :
    (runRL (initRL []) c5CexTrace).results = [ERR_CONNECTION_FAILED] ∧
    (runRL (initRL []) c5CexTrace).primary = .connecting ∧
    (runRL (initRL []) c5CexTrace).backupJob =
      some (.failed ERR_CONNECTION_FAILED) ∧
    (runRL (initRL []) c5CexTrace).done = true := by
  decide

/-- Claim C5 (amended): the Request's callback fires at most once on
every event sequence; the first job failure (primary or backup) that
occurs while the Request is still unsatisfied and uncanceled is
delivered immediately, carrying that failing job's error code — the
other job need not have failed; and once the Request has a terminal
result, no later job event changes the delivered results. -/
theorem c5_failure_delivery_amended :
    (∀ (others : List Nat) (events : List RLEvent),
      (runRL (initRL others) events).results.length ≤ 1) ∧
    (∀ (S : RLState) (c : Int), S.canceled = false → S.done = false →
      S.results = [] → S.primary = .connecting →
      (rlStep S (.prim (.connectFail c))).results = [c] ∧
      (rlStep S (.prim (.connectFail c))).primary = .failed c ∧
      (rlStep S (.prim (.connectFail c))).done = true) ∧
    (∀ (S : RLState) (c : Int), S.canceled = false → S.done = false →
      S.results = [] → S.backupJob = some .connecting →
      (rlStep S (.backup (.connectFail c))).results = [c] ∧
      (rlStep S (.backup (.connectFail c))).backupJob = some (.failed c) ∧
      (rlStep S (.backup (.connectFail c))).done = true) ∧
    (∀ (S : RLState) (e : RLEvent), S.done = true →
      (rlStep S e).results = S.results) := by
  refine ⟨?_, ?_, ?_, ?_⟩
  · intro others events
    exact (KInv_runRL others events).atMostOne
  · intro S c hc hd hr hp
    simp [rlStep, hp, onJobFailed, hc, hd, deliverResult, hr]
  · intro S c hc hd hr hb
    simp [rlStep, hb, onJobFailed, hc, hd, deliverResult, hr]
  · intro S e hd
    cases e with
    | prim je =>
        cases hp : S.primary <;> cases je <;>
          simp [rlStep, hp, onJobFailed, onJobConnected, hd, routeSocket_results]
    | backup je =>
        cases hb : S.backupJob with
        | none => simp [rlStep, hb]
        | some b =>
            cases b <;> cases je <;>
              simp [rlStep, hb, onJobFailed, onJobConnected, hd,
                routeSocket_results]
    | timerFires =>
        simp [rlStep, hd]
    | cancel =>
        simp [rlStep, hd]

/-- Claim C5 witness: on the `BackupSocketFailAfterStall` prefix — the
primary's connect stalls, the backup has resolved — the backup's
immediate failure is delivered exactly once with its code, and the
later events of any continuation leave the single result in place. -/
theorem c5_failure_delivery_amended_witness :
    (rlStep (runRL (initRL [])
        [RLEvent.prim .resolveOk, RLEvent.timerFires, RLEvent.backup .resolveOk])
        (.backup (.connectFail ERR_CONNECTION_FAILED))).results =
      [ERR_CONNECTION_FAILED] ∧
    (rlStep (runRL (initRL []) c5CexTrace) (.prim .connectOk)).results =
      (runRL (initRL []) c5CexTrace).results := by
  refine ⟨?_, ?_⟩
  · exact (c5_failure_delivery_amended.2.2.1 _ ERR_CONNECTION_FAILED
      (by decide) (by decide) (by decide) (by decide)).1
  · exact c5_failure_delivery_amended.2.2.2 _ (.prim .connectOk) (by decide)

/-- Claim C6: a handle reset before its Request completes never sees its
callback invoked with any result afterwards: whatever events follow the
cancellation, the result list stays empty, so a `Canceled` outcome is
never surfaced as a terminal callback result. -/
theorem c6_reset_before_completion_no_callback :
    ∀ (others : List Nat) (events1 events2 : List RLEvent),
      (runRL (initRL others) events1).done = false →
      (runRL (initRL others)
        (events1 ++ RLEvent.cancel :: events2)).results = [] := by
  intro others events1 events2 hd
  have hsplit : events1 ++ RLEvent.cancel :: events2 =
      (events1 ++ [RLEvent.cancel]) ++ events2 := by simp
  have hcan : (runRL (initRL others)
      (events1 ++ RLEvent.cancel :: events2)).canceled = true := by
    rw [hsplit, runRL_append, runRL_append]
    apply canceled_foldl
    show (rlStep (runRL (initRL others) events1) .cancel).canceled = true
    by_cases hc : (runRL (initRL others) events1).canceled = true
    · exact rlStep_canceled_mono _ _ hc
    · have hcond : (runRL (initRL others) events1).done = false ∧
          (runRL (initRL others) events1).canceled = false :=
        ⟨hd, by simpa using hc⟩
      simp [rlStep, hcond]
  have hK := KInv_runRL others (events1 ++ RLEvent.cancel :: events2)
  exact (hK.notDone (hK.canceledNotDone hcan)).1

/-- Claim C6 witness: cancel a fresh request, then let its job resolve
and connect; no callback ever fires. -/
theorem c6_reset_before_completion_no_callback_witness :
    (runRL (initRL [])
      ([] ++ RLEvent.cancel ::
        [RLEvent.prim .resolveOk, RLEvent.prim .connectOk])).results = [] :=
  c6_reset_before_completion_no_callback [] []
    [RLEvent.prim .resolveOk, RLEvent.prim .connectOk] (by decide)

/-- Claim C8: when host resolution fails for a live Request's ConnectJob,
the job terminal-fails with `ERR_NAME_NOT_RESOLVED` and exactly that
code — not a generic connection failure — is delivered to the Request's
callback. -/
theorem c8_resolution_failure_error :
    ∀ S : RLState, S.canceled = false → S.done = false → S.results = [] →
      S.primary = .resolving →
      (rlStep S (.prim .resolveFail)).primary =
          .failed ERR_NAME_NOT_RESOLVED ∧
      (rlStep S (.prim .resolveFail)).results = [ERR_NAME_NOT_RESOLVED] ∧
      (rlStep S (.prim .resolveFail)).done = true ∧
      ERR_NAME_NOT_RESOLVED ≠ ERR_CONNECTION_FAILED := by
  intro S hc hd hr hp
  refine ⟨?_, ?_, ?_, by decide⟩ <;>
    simp [rlStep, hp, onJobFailed, hc, hd, deliverResult, hr]

/-- Claim C8 witness: a fresh request whose resolution fails completes
with `ERR_NAME_NOT_RESOLVED`. -/
theorem c8_resolution_failure_error_witness :
    (rlStep (initRL []) (.prim .resolveFail)).results =
      [ERR_NAME_NOT_RESOLVED] :=
  (c8_resolution_failure_error (initRL [])
    (by decide) (by decide) (by decide) (by decide)).2.1

/-- Claim C9: `PartialData::Init` returns true exactly when the header
string parses to exactly one byte range and that range is valid; on
success, `current_range_start_` equals the range's first byte position
and `resource_size_` is reset to 0 (and the range is stored in
`byte_range_`). -/
theorem c9_partial_data_init
    (parseRanges : String → Option (List HttpByteRange))
    (isValid : HttpByteRange → Bool) (pd : PartialData) (headers : String) :
    ((PartialData.Init parseRanges isValid pd headers).1 = true ↔
      ∃ r, parseRanges headers = some [r] ∧ isValid r = true) ∧
    (∀ r, parseRanges headers = some [r] → isValid r = true →
      (PartialData.Init parseRanges isValid pd headers).2.current_range_start_ =
        r.first_byte_position ∧
      (PartialData.Init parseRanges isValid pd headers).2.resource_size_ = 0 ∧
      (PartialData.Init parseRanges isValid pd headers).2.byte_range_ = r) := by
  cases hp : parseRanges headers with
  | none =>
      refine ⟨?_, ?_⟩
      · simp [PartialData.Init, hp]
      · intro r hr hv
        cases hr
  | some l =>
      cases l with
      | nil =>
          refine ⟨?_, ?_⟩
          · simp [PartialData.Init, hp]
          · intro r hr hv
            simp at hr
      | cons a t =>
          cases t with
          | nil =>
              by_cases hv : isValid a = true
              · refine ⟨?_, ?_⟩
                · constructor
                  · intro _
                    exact ⟨a, rfl, hv⟩
                  · intro _
                    simp [PartialData.Init, hp, hv]
                · intro r hr hvr
                  have ha : a = r := by simpa using hr
                  subst ha
                  simp [PartialData.Init, hp, hv]
              · refine ⟨?_, ?_⟩
                · constructor
                  · intro h
                    simp [PartialData.Init, hp, hv] at h
                  · rintro ⟨r, hr, hvr⟩
                    have ha : a = r := by simpa using hr
                    subst ha
                    exact absurd hvr hv
                · intro r hr hvr
                  have ha : a = r := by simpa using hr
                  subst ha
                  exact absurd hvr hv
          | cons b t2 =>
              refine ⟨?_, ?_⟩
              · simp [PartialData.Init, hp]
              · intro r hr hvr
                simp at hr

/-- Claim C9 witness: a headers string that parses to the single valid
range 0-9 makes `Init` set `current_range_start_` to 0 and reset
`resource_size_` to 0. -/
theorem c9_partial_data_init_witness :
    (PartialData.Init (fun _ => some [⟨0, 9, -1⟩]) (fun _ => true)
        ⟨⟨-1, -1, -1⟩, -1, 5, false, false, 0⟩
        "Range: bytes=0-9").2.current_range_start_ = 0 ∧
    (PartialData.Init (fun _ => some [⟨0, 9, -1⟩]) (fun _ => true)
        ⟨⟨-1, -1, -1⟩, -1, 5, false, false, 0⟩
        "Range: bytes=0-9").2.resource_size_ = 0 := by
  have h := (c9_partial_data_init (fun _ => some [⟨0, 9, -1⟩]) (fun _ => true)
    ⟨⟨-1, -1, -1⟩, -1, 5, false, false, 0⟩ "Range: bytes=0-9").2
    ⟨0, 9, -1⟩ rfl rfl
  exact ⟨h.1, h.2.1⟩

/-- Claim C10 counterexample: on a non-sparse entry with
`current_range_start_ = kint32max + 1`, `CacheRead` called with
`data_len = 0` returns 0 (the zero-length early return), not
`ERR_INVALID_ARGUMENT` — though still without any entry I/O. -/
theorem c10_zero_length_read_counterexample :
    (⟨⟨0, -1, -1⟩, 2147483648, 0, false, false, 5⟩ :
        PartialData).sparse_entry_ = false ∧
    kint32max <
      (⟨⟨0, -1, -1⟩, 2147483648, 0, false, false, 5⟩ :
        PartialData).current_range_start_ ∧
    PartialData.CacheRead
        ⟨⟨0, -1, -1⟩, 2147483648, 0, false, false, 5⟩ 0 = .ret 0 ∧
    PartialData.CacheRead
        ⟨⟨0, -1, -1⟩, 2147483648, 0, false, false, 5⟩ 0 ≠
      .ret ERR_INVALID_ARGUMENT := by
  refine ⟨rfl, by decide, by decide, by decide⟩

/-- Claim C10 (amended): on a non-sparse entry with
`current_range_start_` above `kint32max`, `CacheWrite` always returns
`ERR_INVALID_ARGUMENT` with no entry I/O, and `CacheRead` does so too
unless the effective read length `min(data_len, cached_min_len_)` is
zero, in which case it returns 0 — again with no entry I/O.  In every
case the int32-narrowed offset handed to `ReadData`/`WriteData` is at
most `kint32max`, so the narrowing never truncates a too-large start. -/
theorem c10_narrowing_guard_amended :
    (∀ (pd : PartialData) (data_len : Int), pd.sparse_entry_ = false →
      kint32max < pd.current_range_start_ →
      PartialData.CacheWrite pd data_len = .ret ERR_INVALID_ARGUMENT ∧
      (min data_len pd.cached_min_len_ ≠ 0 →
        PartialData.CacheRead pd data_len = .ret ERR_INVALID_ARGUMENT) ∧
      (min data_len pd.cached_min_len_ = 0 →
        PartialData.CacheRead pd data_len = .ret 0)) ∧
    (∀ (pd : PartialData) (data_len off len : Int),
      PartialData.CacheRead pd data_len = .readData off len →
      off ≤ kint32max) ∧
    (∀ (pd : PartialData) (data_len off len : Int),
      PartialData.CacheWrite pd data_len = .writeData off len →
      off ≤ kint32max) := by
  refine ⟨?_, ?_, ?_⟩
  · intro pd dl hs hg
    refine ⟨?_, ?_, ?_⟩
    · simp [PartialData.CacheWrite, hs, hg]
    · intro hmin
      simp [PartialData.CacheRead, hs, hg, hmin]
    · intro hmin
      simp [PartialData.CacheRead, hmin]
  · intro pd dl off len h
    unfold PartialData.CacheRead at h
    by_cases h0 : min dl pd.cached_min_len_ = 0
    · rw [if_pos h0] at h
      simp at h
    · rw [if_neg h0] at h
      by_cases hs : pd.sparse_entry_ = true
      · rw [if_pos hs] at h
        simp at h
      · rw [if_neg hs] at h
        by_cases hg : pd.current_range_start_ > kint32max
        · rw [if_pos hg] at h
          simp at h
        · rw [if_neg hg] at h
          simp only [CacheIOAction.readData.injEq] at h
          obtain ⟨ho, -⟩ := h
          omega
  · intro pd dl off len h
    unfold PartialData.CacheWrite at h
    by_cases hs : pd.sparse_entry_ = true
    · rw [if_pos hs] at h
      simp at h
    · rw [if_neg hs] at h
      by_cases hg : pd.current_range_start_ > kint32max
      · rw [if_pos hg] at h
        simp at h
      · rw [if_neg hg] at h
        simp only [CacheIOAction.writeData.injEq] at h
        obtain ⟨ho, -⟩ := h
        omega

/-- Claim C10 witness: a non-sparse entry at
`current_range_start_ = kint32max + 1` with a nonzero effective read
length gets `ERR_INVALID_ARGUMENT` from both `CacheRead` and
`CacheWrite`. -/
theorem c10_narrowing_guard_amended_witness :
    PartialData.CacheWrite
        ⟨⟨0, -1, -1⟩, 2147483648, 0, false, false, 5⟩ 10 =
      .ret ERR_INVALID_ARGUMENT ∧
    PartialData.CacheRead
        ⟨⟨0, -1, -1⟩, 2147483648, 0, false, false, 5⟩ 10 =
      .ret ERR_INVALID_ARGUMENT := by
  have h := c10_narrowing_guard_amended.1
    ⟨⟨0, -1, -1⟩, 2147483648, 0, false, false, 5⟩ 10 rfl (by decide)
  exact ⟨h.1, h.2.1 (by decide)⟩

end ChromiumNet
